import Mathlib

/-!
Verification of the turn-order scheduler of the bevy_rl repository.

The Rust sources under review are:
  src/controller/systems/keyboard_input.rs  (player_input_system, ACTION_KEYS, time cost)
  src/model/resources/map.rs                (Map, get_actor, set_actor, border terrain)
  src/model/systems/spawn_player.rs         (spawn_player: actor registration and scheduling)
together with the specification of the TurnQueue / TurnSystem resource and the
Turn Resolution Engine, whose Rust implementation is not among the reviewed files;
those parts are modelled from the specification and are marked as such below.
-/

namespace BevyRL

/-- Movement directions, from the model components as used by keyboard_input.rs. -/
inductive MoveDirection
  | North
  | South
  | East
  | West
deriving DecidableEq, Repr

/-- The Action component: Move, Wait or PickupItem (keyboard_input.rs ACTION_KEYS). -/
inductive Action
  | Move (dir : MoveDirection)
  | Wait
  | PickupItem
deriving DecidableEq, Repr

/-- The keyboard keys appearing in ACTION_KEYS (keyboard_input.rs lines 10-31). -/
inductive KeyCode
  | KeyW
  | ArrowUp
  | KeyS
  | ArrowDown
  | KeyA
  | ArrowLeft
  | KeyD
  | ArrowRight
  | Space
  | Period
  | KeyG
  | Comma
deriving DecidableEq, Repr

/-- The TurnActor component: per-actor speed and absolute next-turn time
(used by keyboard_input.rs and spawn_player.rs). -/
structure TurnActor where
  speed : Nat
  next_turn_time : Nat
deriving DecidableEq, Repr

/-- Time cost of an action, from player_input_system (keyboard_input.rs lines 58-62):
Move costs speed, Wait costs speed / 2, everything else costs speed. -/
def time_cost (input_action : Action) (speed : Nat) : Nat :=
  match input_action with
  | Action.Move _ => speed
  | Action.Wait => speed / 2
  | _ => speed

/-- The static ACTION_KEYS table (keyboard_input.rs lines 10-31), in the literal order
of the source text. The Rust value is a HashMap whose iteration order is arbitrary;
none of the proved facts depend on the order of this list. -/
def ACTION_KEYS : List (Action × List KeyCode) :=
  [ (Action.Move MoveDirection.North, [KeyCode.KeyW, KeyCode.ArrowUp]),
    (Action.Move MoveDirection.South, [KeyCode.KeyS, KeyCode.ArrowDown]),
    (Action.Move MoveDirection.West,  [KeyCode.KeyA, KeyCode.ArrowLeft]),
    (Action.Move MoveDirection.East,  [KeyCode.KeyD, KeyCode.ArrowRight]),
    (Action.Wait, [KeyCode.Space, KeyCode.Period]),
    (Action.PickupItem, [KeyCode.KeyG, KeyCode.Comma]) ]

/-- The key-scan loop of player_input_system (keyboard_input.rs lines 44-49): the first
table row one of whose keys was just pressed supplies the action; the loop breaks there,
so at most one action is ever chosen. -/
def chooseAction : List (Action × List KeyCode) → List KeyCode → Option Action
  | [], _ => none
  | (action, keys) :: rest, pressed =>
      if keys.any (fun k => pressed.contains k) then some action
      else chooseAction rest pressed

/-- Grid position with i32 coordinates (model components). -/
structure Position where
  x : Int
  y : Int
deriving DecidableEq, Repr

/-- Terrain tile kinds (model components, as matched in add_sprite_to_tile.rs). -/
inductive TerrainType
  | Floor
  | Wall
  | Door
  | UpStairs
  | DownStairs
deriving DecidableEq, Repr

/-- Lookup in the association-list model of HashMap Position Entity: first matching
key wins (a well-formed HashMap has at most one entry per key). -/
def hmLookup : List (Position × Nat) → Position → Option Nat
  | [], _ => none
  | (q, a) :: rest, p => if q = p then some a else hmLookup rest p

/-- Removal of a key from the association-list model of HashMap Position Entity. -/
def hmRemove : List (Position × Nat) → Position → List (Position × Nat)
  | [], _ => []
  | (q, a) :: rest, p =>
      if q = p then hmRemove rest p else (q, a) :: hmRemove rest p

/-- HashMap insert: overwrites any entry already stored under the key. -/
def hmInsert (l : List (Position × Nat)) (p : Position) (a : Nat) :
    List (Position × Nat) :=
  (p, a) :: hmRemove l p

/-- The Map resource (map.rs lines 9-15): grid size and the actors occupancy map.
The terrain grid of entity ids is modelled by the tile-kind function mapTileType
below, which is the closure Map::new passes to Grid::new_fn. -/
structure Map where
  size : Nat × Nat
  actors : List (Position × Nat)
deriving DecidableEq, Repr

/-- Map::get_actor (map.rs lines 72-74). -/
def Map.get_actor (m : Map) (position : Position) : Option Nat :=
  hmLookup m.actors position

/-- Map::set_actor (map.rs lines 76-82): Some actor inserts (overwriting any previous
occupant), None removes the entry. -/
def Map.set_actor (m : Map) (position : Position) (actor : Option Nat) : Map :=
  match actor with
  | some a => { m with actors := hmInsert m.actors position a }
  | none => { m with actors := hmRemove m.actors position }

/-- The terrain closure of Map::new and the FromWorld construction (map.rs lines 24-30
and 45-51): a tile is a Wall when it lies on the border of the grid, a Floor otherwise. -/
def mapTileType (size : Nat × Nat) (x y : Nat) : TerrainType :=
  if x = 0 ∨ y = 0 ∨ x = size.1 - 1 ∨ y = size.2 - 1 then TerrainType.Wall
  else TerrainType.Floor

/-- One turn-queue entry: eligibility time, insertion sequence number, actor id. -/
structure QEntry where
  time : Nat
  seq : Nat
  actor : Nat
deriving DecidableEq, Repr

/-- Scheduling precedence: strictly earlier time first; equal times resolve in
registration order, that is by smaller sequence number. -/
def entryBefore (a b : QEntry) : Prop :=
  a.time < b.time ∨ (a.time = b.time ∧ a.seq < b.seq)

/-- Stable insert into the time-ordered queue: the new entry goes after every entry
whose time is at most its own, so already-queued entries of equal time keep their
precedence. -/
def insertEntry (e : QEntry) : List QEntry → List QEntry
  | [] => [e]
  | x :: xs => if x.time ≤ e.time then x :: insertEntry e xs else e :: x :: xs

/-- Removal of the queue entries of a given actor (schedule replaces, never
duplicates). -/
def removeActor : List QEntry → Nat → List QEntry
  | [], _ => []
  | e :: rest, a =>
      if e.actor = a then removeActor rest a else e :: removeActor rest a

/-- Modelled from the spec: the TurnQueue / TurnSystem resource, whose Rust file is
not among the reviewed sources (keyboard_input.rs reads its current_time field and
spawn_player.rs calls current_time and schedule_turn on it). It holds the global
clock and a priority structure ascending in next_turn_time, ties broken by
registration order. -/
structure TurnQueue where
  current_time : Nat
  nextSeq : Nat
  entries : List QEntry
deriving DecidableEq, Repr

/-- Modelled from the spec: schedule(actor, at_time) inserts or updates the actor
entry; an existing entry is replaced, never duplicated. -/
def TurnQueue.schedule (q : TurnQueue) (actor : Nat) (at_time : Nat) : TurnQueue :=
  { current_time := q.current_time,
    nextSeq := q.nextSeq + 1,
    entries := insertEntry ⟨at_time, q.nextSeq, actor⟩ (removeActor q.entries actor) }

/-- Modelled from the spec: peek_next returns the head actor without mutating. -/
def TurnQueue.peek_next (q : TurnQueue) : Option Nat :=
  q.entries.head?.map QEntry.actor

/-- Modelled from the spec: advance_to_next pops the head entry and catches the
clock up to it, current_time becoming max(current_time, popped_time). -/
def TurnQueue.advance_to_next (q : TurnQueue) : Option (Nat × Nat) × TurnQueue :=
  match q.entries with
  | [] => (none, q)
  | e :: rest =>
      (some (e.actor, e.time),
       { current_time := max q.current_time e.time, nextSeq := q.nextSeq,
         entries := rest })

/-- The scheduling-relevant state of one actor: the TurnActor timing data, the
Player role tag, the WaitingForInput gate marker and the attached Action component. -/
structure ActorState where
  speed : Nat
  next_turn_time : Nat
  player : Bool
  waitingForInput : Bool
  action : Option Action
deriving DecidableEq, Repr

/-- player_input_system (keyboard_input.rs lines 34-71): runs on the single entity
matching With WaitingForInput and With Player; at most one action is chosen from the
key table; when an action is chosen the gate marker is removed, next_turn_time
becomes current_time + time_cost, and the action is attached as a component. The
returned list holds the Action components inserted by this invocation. -/
def player_input_system (pressed : List KeyCode) (current_time : Nat)
    (st : ActorState) : ActorState × List Action :=
  if st.waitingForInput && st.player then
    match chooseAction ACTION_KEYS pressed with
    | some input_action =>
        ({ st with
            waitingForInput := false,
            next_turn_time := current_time + time_cost input_action st.speed,
            action := some input_action }, [input_action])
    | none => (st, [])
  else (st, [])

/-- Modelled from the spec: steps 4 to 6 of the Turn Resolution Engine, whose Rust
implementation is not among the reviewed sources. The head entry is popped with
advance_to_next (clock catch-up), the time_cost rule of player_input_system is
charged, the gate is cleared, the action consumed, and the actor rescheduled at
current_time + time_cost. -/
def resolveTurn (q : TurnQueue) (st : ActorState) (a : Action) :
    TurnQueue × ActorState :=
  match q.advance_to_next with
  | (none, q1) => (q1, st)
  | (some (actor, _), q1) =>
      let ntt := q1.current_time + time_cost a st.speed
      (q1.schedule actor ntt,
       { st with next_turn_time := ntt, waitingForInput := false, action := none })

/-- Modelled from the spec: one invocation of the Turn Resolution Engine, steps 1
to 3: an empty queue is a no-op; a Player head without an attached Action is marked
WaitingForInput and nothing else changes; a non-player head without an Action halts
unchanged; a head with an Action resolves. -/
def engineStep (q : TurnQueue) (st : ActorState) : TurnQueue × ActorState :=
  match q.peek_next with
  | none => (q, st)
  | some _ =>
      match st.action with
      | some a => resolveTurn q st a
      | none =>
          if st.player then (q, { st with waitingForInput := true })
          else (q, st)

/-- One engine/input-system invocation: the input system runs on the current state,
then the engine step. -/
def frame (pressed : List KeyCode) (p : TurnQueue × ActorState) :
    TurnQueue × ActorState :=
  engineStep p.1 (player_input_system pressed p.1.current_time p.2).1

/-- Iterated engine/input-system invocations. -/
def iterFrame (pressed : List KeyCode) :
    Nat → TurnQueue × ActorState → TurnQueue × ActorState
  | 0, p => p
  | n + 1, p => iterFrame pressed n (frame pressed p)

/-- The entity id the ECS allocates for the player in spawn_player. -/
def playerId : Nat := 0

/-- The entity id the ECS allocates for the enemy in spawn_player. -/
def enemyId : Nat := 1

/-- spawn_player (spawn_player.rs), its scheduling-relevant effect: the player entity
receives TurnActor with speed 100 and next_turn_time 0, the enemy entity TurnActor
with speed 120 and next_turn_time 0 (lines 49-55 and 71-77); both are then scheduled
through schedule_turn at turn_system.current_time() (lines 82-84). -/
def spawn_player (q : TurnQueue) : TurnQueue × TurnActor × TurnActor :=
  ((q.schedule playerId q.current_time).schedule enemyId q.current_time,
   { speed := 100, next_turn_time := 0 },
   { speed := 120, next_turn_time := 0 })

/-- Outcome of applying a move: the occupancy map, the final actor position and the
time cost charged. -/
structure MoveOutcome where
  map : Map
  pos : Position
  timeCost : Nat
deriving DecidableEq, Repr

/-- Modelled from the spec: the movement step of turn resolution (step 7 together
with the MoveRejected rule), whose Rust implementation is not among the reviewed
sources. When the destination is unoccupied and passable, occupancy moves through
the source Map.set_actor; otherwise the move is rejected: map and position are
untouched, no error is produced, and the full move cost is still charged. -/
def apply_move (m : Map) (passable : Position → Bool) (actor : Nat)
    (pos dest : Position) (speed : Nat) : MoveOutcome :=
  if (m.get_actor dest).isNone && passable dest then
    { map := (m.set_actor pos none).set_actor dest (some actor),
      pos := dest,
      timeCost := speed }
  else
    { map := m, pos := pos, timeCost := speed }

/-- Empty turn queue at clock zero. -/
def emptyQueue : TurnQueue := ⟨0, 0, []⟩

/-- A queue built by a sequence of schedule calls (actor, time) starting from the
empty queue; the sequence order is the registration order. -/
def buildQueue (ops : List (Nat × Nat)) : TurnQueue :=
  ops.foldl (fun q op => q.schedule op.1 op.2) emptyQueue

/-- Queue well-formedness: entries sorted by scheduling precedence, and every stored
sequence number below the next fresh one. -/
def queueWF (q : TurnQueue) : Prop :=
  q.entries.Pairwise entryBefore ∧ ∀ e ∈ q.entries, e.seq < q.nextSeq

-- Association-list lemmas for the occupancy map.

theorem hmLookup_hmRemove_self (l : List (Position × Nat)) (p : Position) :
    hmLookup (hmRemove l p) p = none := by
  induction l with
  | nil => rfl
  | cons e rest ih =>
      obtain ⟨q, a⟩ := e
      by_cases hqp : q = p
      · simpa [hmRemove, hqp] using ih
      · simp [hmRemove, hqp, hmLookup, ih]

theorem hmLookup_hmRemove_ne (l : List (Position × Nat)) (p q : Position)
    (hq : q ≠ p) : hmLookup (hmRemove l p) q = hmLookup l q := by
  induction l with
  | nil => rfl
  | cons e rest ih =>
      obtain ⟨r, a⟩ := e
      by_cases hrp : r = p
      · subst hrp
        have hrq : ¬(r = q) := fun h => hq h.symm
        simp [hmRemove, hmLookup, hrq, ih]
      · simp [hmRemove, hrp, hmLookup, ih]

-- Turn-queue lemmas.

theorem mem_insertEntry (x e : QEntry) (l : List QEntry) :
    x ∈ insertEntry e l ↔ x = e ∨ x ∈ l := by
  induction l with
  | nil => simp [insertEntry]
  | cons y ys ih =>
      by_cases hy : y.time ≤ e.time
      · simp only [insertEntry, if_pos hy, List.mem_cons, ih]
        tauto
      · simp only [insertEntry, if_neg hy, List.mem_cons]

theorem self_mem_insertEntry (e : QEntry) (l : List QEntry) : e ∈ insertEntry e l :=
  (mem_insertEntry e e l).mpr (Or.inl rfl)

theorem entryBefore_time_le {a b : QEntry} (h : entryBefore a b) :
    a.time ≤ b.time := by
  rcases h with h | ⟨h, _⟩
  · exact Nat.le_of_lt h
  · exact Nat.le_of_eq h

theorem entryBefore_asymm {a b : QEntry} (h : entryBefore a b) :
    ¬entryBefore b a := by
  rcases h with h | ⟨he, hs⟩
  · rintro (h2 | ⟨he2, _⟩)
    · exact Nat.lt_asymm h h2
    · exact Nat.ne_of_lt h he2.symm
  · rintro (h2 | ⟨_, hs2⟩)
    · exact Nat.ne_of_lt h2 he.symm
    · exact Nat.lt_asymm hs hs2

theorem insertEntry_pairwise (e : QEntry) (l : List QEntry)
    (hseq : ∀ x ∈ l, x.seq < e.seq) (hp : l.Pairwise entryBefore) :
    (insertEntry e l).Pairwise entryBefore := by
  induction l with
  | nil => simp [insertEntry, List.pairwise_cons]
  | cons x xs ih =>
      rw [List.pairwise_cons] at hp
      obtain ⟨hxall, hpxs⟩ := hp
      by_cases hx : x.time ≤ e.time
      · rw [insertEntry, if_pos hx, List.pairwise_cons]
        constructor
        · intro y hy
          rcases (mem_insertEntry y e xs).mp hy with rfl | hyxs
          · rcases Nat.lt_or_eq_of_le hx with hlt | heq
            · exact Or.inl hlt
            · exact Or.inr ⟨heq, hseq x (List.mem_cons_self x xs)⟩
          · exact hxall y hyxs
        · exact ih (fun z hz => hseq z (List.mem_cons_of_mem x hz)) hpxs
      · rw [insertEntry, if_neg hx, List.pairwise_cons]
        have hex : e.time < x.time := Nat.lt_of_not_le hx
        refine ⟨?_, List.pairwise_cons.mpr ⟨hxall, hpxs⟩⟩
        intro y hy
        rcases List.mem_cons.mp hy with rfl | hyxs
        · exact Or.inl hex
        · exact Or.inl (Nat.lt_of_lt_of_le hex (entryBefore_time_le (hxall y hyxs)))

theorem removeActor_sublist (l : List QEntry) (a : Nat) :
    (removeActor l a).Sublist l := by
  induction l with
  | nil => simp [removeActor]
  | cons e rest ih =>
      by_cases he : e.actor = a
      · rw [removeActor, if_pos he]
        exact ih.cons e
      · rw [removeActor, if_neg he]
        exact ih.cons₂ e

theorem mem_removeActor_of_mem {x : QEntry} {l : List QEntry} {a : Nat}
    (hx : x ∈ l) (hne : x.actor ≠ a) : x ∈ removeActor l a := by
  induction l with
  | nil => cases hx
  | cons e rest ih =>
      rcases List.mem_cons.mp hx with rfl | hrest
      · rw [removeActor, if_neg hne]
        exact List.mem_cons_self x _
      · by_cases he : e.actor = a
        · rw [removeActor, if_pos he]
          exact ih hrest
        · rw [removeActor, if_neg he]
          exact List.mem_cons_of_mem e (ih hrest)

theorem schedule_WF (q : TurnQueue) (actor at_time : Nat) (h : queueWF q) :
    queueWF (q.schedule actor at_time) := by
  obtain ⟨hp, hs⟩ := h
  constructor
  · exact insertEntry_pairwise _ _
      (fun x hx => hs x ((removeActor_sublist q.entries actor).mem hx))
      (hp.sublist (removeActor_sublist q.entries actor))
  · intro e he
    rcases (mem_insertEntry e _ _).mp he with rfl | hrem
    · exact Nat.lt_succ_self _
    · exact Nat.lt_succ_of_lt (hs e ((removeActor_sublist q.entries actor).mem hrem))

theorem foldl_schedule_WF (ops : List (Nat × Nat)) (q : TurnQueue)
    (h : queueWF q) :
    queueWF (ops.foldl (fun acc op => acc.schedule op.1 op.2) q) := by
  induction ops generalizing q with
  | nil => exact h
  | cons op rest ih => exact ih _ (schedule_WF q op.1 op.2 h)

theorem buildQueue_WF (ops : List (Nat × Nat)) : queueWF (buildQueue ops) :=
  foldl_schedule_WF ops emptyQueue ⟨List.Pairwise.nil, by simp [emptyQueue]⟩

theorem pairwise_mem_sublist {l : List QEntry} (hp : l.Pairwise entryBefore)
    {a b : QEntry} (ha : a ∈ l) (hb : b ∈ l) (hab : entryBefore a b) :
    List.Sublist [a, b] l := by
  induction l with
  | nil => cases ha
  | cons x xs ih =>
      rw [List.pairwise_cons] at hp
      obtain ⟨hxall, hpxs⟩ := hp
      rcases List.mem_cons.mp ha with rfl | haxs
      · rcases List.mem_cons.mp hb with rfl | hbxs
        · exact absurd hab (entryBefore_asymm hab)
        · exact (List.singleton_sublist.mpr hbxs).cons₂ a
      · rcases List.mem_cons.mp hb with rfl | hbxs
        · exact absurd hab (entryBefore_asymm (hxall a haxs))
        · exact (ih hpxs haxs hbxs).cons x

/-- C9: writing an occupant with set_actor is read back by get_actor, clearing with
None reads back as none, both leave every other position untouched, and a second
set on an occupied cell silently overwrites the previous occupant. -/
theorem c9_set_get_actor (m : Map) (p q : Position) (a b : Nat) (hq : q ≠ p) :
    (m.set_actor p (some a)).get_actor p = some a ∧
    (m.set_actor p none).get_actor p = none ∧
    (m.set_actor p (some a)).get_actor q = m.get_actor q ∧
    (m.set_actor p none).get_actor q = m.get_actor q ∧
    ((m.set_actor p (some b)).set_actor p (some a)).get_actor p = some a := by
  refine ⟨?_, ?_, ?_, ?_, ?_⟩
  · simp [Map.set_actor, Map.get_actor, hmInsert, hmLookup]
  · simpa [Map.set_actor, Map.get_actor] using hmLookup_hmRemove_self m.actors p
  · have hpq : ¬(p = q) := fun h => hq h.symm
    simp [Map.set_actor, Map.get_actor, hmInsert, hmLookup, hpq,
      hmLookup_hmRemove_ne m.actors p q hq]
  · simpa [Map.set_actor, Map.get_actor] using hmLookup_hmRemove_ne m.actors p q hq
  · simp [Map.set_actor, Map.get_actor, hmInsert, hmLookup]

/-- C9 witness: the laws at a concrete map, positions and actors. -/
theorem c9_set_get_actor_witness :
    ((⟨0, 0⟩ : Position) ≠ (⟨1, 1⟩ : Position)) ∧
    ((Map.mk (3, 3) []).set_actor ⟨1, 1⟩ (some 5)).get_actor ⟨1, 1⟩ = some 5 := by
  refine ⟨by decide, ?_⟩
  exact (c9_set_get_actor (Map.mk (3, 3) []) ⟨1, 1⟩ ⟨0, 0⟩ 5 9 (by decide)).1

/-- C1: the time cost charged for an action is speed for Move, speed / 2 (integer
division) for Wait, and speed for every other action kind, PickupItem included. -/
theorem c1_time_cost_by_kind (speed : Nat) :
    (∀ d, time_cost (Action.Move d) speed = speed) ∧
    time_cost Action.Wait speed = speed / 2 ∧
    time_cost Action.PickupItem speed = speed :=
  ⟨fun _ => rfl, rfl, rfl⟩

/-- C10: a terrain tile of a map built by Map::new or FromWorld is a Wall exactly
when it lies on the border of the grid, and a Floor otherwise. -/
theorem c10_border_walls (w h x y : Nat) (hx : x < w) (hy : y < h) :
    (mapTileType (w, h) x y = TerrainType.Wall ↔
      (x = 0 ∨ y = 0 ∨ x = w - 1 ∨ y = h - 1)) ∧
    (mapTileType (w, h) x y = TerrainType.Floor ↔
      ¬(x = 0 ∨ y = 0 ∨ x = w - 1 ∨ y = h - 1)) := by
  unfold mapTileType
  by_cases hc : x = 0 ∨ y = 0 ∨ x = w - 1 ∨ y = h - 1
  · simp [hc]
  · simp [hc]

/-- C10 witness: in a 10 by 8 map, the tile at (0, 3) is a border Wall and the tile
at (4, 3) is an interior Floor. -/
theorem c10_border_walls_witness :
    mapTileType (10, 8) 0 3 = TerrainType.Wall ∧
    mapTileType (10, 8) 4 3 = TerrainType.Floor := by
  constructor
  · exact (c10_border_walls 10 8 0 3 (by decide) (by decide)).1.mpr (Or.inl rfl)
  · exact (c10_border_walls 10 8 4 3 (by decide) (by decide)).2.mpr (by decide)

/-- C2: when a turn resolves, the global clock is first caught up to
max(current_time, popped_time) and the actor's new next_turn_time is that
caught-up clock plus the action's time cost. -/
theorem c2_clock_catchup (q : TurnQueue) (st : ActorState) (a : Action)
    (e : QEntry) (rest : List QEntry) (h : q.entries = e :: rest) :
    (resolveTurn q st a).1.current_time = max q.current_time e.time ∧
    (resolveTurn q st a).2.next_turn_time
      = max q.current_time e.time + time_cost a st.speed := by
  simp [resolveTurn, TurnQueue.advance_to_next, h, TurnQueue.schedule]

/-- C2 witness: resolving a Wait turn for the head entry of time 3 with the clock
at 5 catches the clock up to max 5 3 = 5 and reschedules at 5 + 100 / 2. -/
theorem c2_clock_catchup_witness :
    (⟨5, 1, [⟨3, 0, 7⟩]⟩ : TurnQueue).entries = ⟨3, 0, 7⟩ :: [] ∧
    (resolveTurn ⟨5, 1, [⟨3, 0, 7⟩]⟩ ⟨100, 3, true, true, none⟩
        Action.Wait).1.current_time = max 5 3 ∧
    (resolveTurn ⟨5, 1, [⟨3, 0, 7⟩]⟩ ⟨100, 3, true, true, none⟩
        Action.Wait).2.next_turn_time = max 5 3 + time_cost Action.Wait 100 := by
  have h := c2_clock_catchup ⟨5, 1, [⟨3, 0, 7⟩]⟩ ⟨100, 3, true, true, none⟩
    Action.Wait ⟨3, 0, 7⟩ [] rfl
  exact ⟨rfl, h.1, h.2⟩

/-- C3: a gated player actor whose Move action resolves has the gate cleared, its
next_turn_time grows by exactly its speed, and it is re-queued with that value;
the clock-behind-head hypothesis and queue-registry agreement hypothesis are the
scheduler invariants. -/
theorem c3_gated_player_move (q : TurnQueue) (st : ActorState) (d : MoveDirection)
    (e : QEntry) (rest : List QEntry)
    (hq : q.entries = e :: rest)
    (hsync : e.time = st.next_turn_time)
    (hclock : q.current_time ≤ st.next_turn_time)
    (hgate : st.waitingForInput = true)
    (hplayer : st.player = true) :
    (resolveTurn q st (Action.Move d)).2.waitingForInput = false ∧
    (resolveTurn q st (Action.Move d)).2.next_turn_time
        = st.next_turn_time + st.speed ∧
    (⟨st.next_turn_time + st.speed, q.nextSeq, e.actor⟩ : QEntry)
        ∈ (resolveTurn q st (Action.Move d)).1.entries := by
  have hmax : max q.current_time e.time = st.next_turn_time := by
    rw [hsync]
    exact Nat.max_eq_right hclock
  refine ⟨?_, ?_, ?_⟩
  · simp [resolveTurn, TurnQueue.advance_to_next, hq]
  · simp [resolveTurn, TurnQueue.advance_to_next, hq, TurnQueue.schedule,
      time_cost, hmax]
  · simp only [resolveTurn, TurnQueue.advance_to_next, hq, TurnQueue.schedule,
      time_cost, hmax]
    exact self_mem_insertEntry _ _

/-- C3 witness: a gated player of speed 100 at head time 0 with the clock at 0,
resolving Move North. -/
theorem c3_gated_player_move_witness :
    (⟨0, 1, [⟨0, 0, 7⟩]⟩ : TurnQueue).entries = ⟨0, 0, 7⟩ :: [] ∧
    (0 : Nat) ≤ 0 ∧
    (resolveTurn ⟨0, 1, [⟨0, 0, 7⟩]⟩ ⟨100, 0, true, true, none⟩
        (Action.Move MoveDirection.North)).2.waitingForInput = false ∧
    (resolveTurn ⟨0, 1, [⟨0, 0, 7⟩]⟩ ⟨100, 0, true, true, none⟩
        (Action.Move MoveDirection.North)).2.next_turn_time = 0 + 100 ∧
    (⟨0 + 100, 1, 7⟩ : QEntry)
        ∈ (resolveTurn ⟨0, 1, [⟨0, 0, 7⟩]⟩ ⟨100, 0, true, true, none⟩
            (Action.Move MoveDirection.North)).1.entries := by
  have h := c3_gated_player_move ⟨0, 1, [⟨0, 0, 7⟩]⟩ ⟨100, 0, true, true, none⟩
    MoveDirection.North ⟨0, 0, 7⟩ [] rfl rfl (Nat.le_refl 0) rfl rfl
  exact ⟨rfl, Nat.le_refl 0, h.1, h.2.1, h.2.2⟩

/-- C4 counterexample: with the scheduler clock at 7, spawn_player still registers
the player with next_turn_time 0, not the current clock value, so the registry
entry and the queue entry (scheduled at 7) disagree. -/
theorem c4_spawn_counterexample :
    ¬ ((spawn_player ⟨7, 0, []⟩).2.1.next_turn_time
        = (⟨7, 0, []⟩ : TurnQueue).current_time) := by
  decide

/-- C4 amended: spawn_player registers both actors with initial next_turn_time 0
and schedules each of them in the queue at the scheduler's current clock value;
registry and queue entries therefore agree exactly when the clock is 0, as at
startup. -/
theorem c4_spawn_registers_zero_schedules_at_clock (q : TurnQueue) :
    (spawn_player q).2.1.next_turn_time = 0 ∧
    (spawn_player q).2.2.next_turn_time = 0 ∧
    (∃ en ∈ (spawn_player q).1.entries,
        en.actor = playerId ∧ en.time = q.current_time) ∧
    (∃ en ∈ (spawn_player q).1.entries,
        en.actor = enemyId ∧ en.time = q.current_time) := by
  refine ⟨rfl, rfl, ?_, ?_⟩
  · refine ⟨⟨q.current_time, q.nextSeq, playerId⟩, ?_, rfl, rfl⟩
    show _ ∈ insertEntry _ (removeActor
      (insertEntry ⟨q.current_time, q.nextSeq, playerId⟩
        (removeActor q.entries playerId)) enemyId)
    refine (mem_insertEntry _ _ _).mpr (Or.inr ?_)
    refine mem_removeActor_of_mem (self_mem_insertEntry _ _) ?_
    simp [playerId, enemyId]
  · exact ⟨⟨q.current_time, q.nextSeq + 1, enemyId⟩,
      self_mem_insertEntry _ _, rfl, rfl⟩

/-- C5: in a queue built by any sequence of schedule calls, an entry with strictly
smaller time, or equal time and smaller insertion sequence number, occurs closer to
the head, so it resolves first; the sequence number records registration order. -/
theorem c5_resolution_order (ops : List (Nat × Nat)) (a b : QEntry)
    (ha : a ∈ (buildQueue ops).entries) (hb : b ∈ (buildQueue ops).entries)
    (h : a.time < b.time ∨ (a.time = b.time ∧ a.seq < b.seq)) :
    List.Sublist [a, b] (buildQueue ops).entries :=
  pairwise_mem_sublist (buildQueue_WF ops).1 ha hb h

/-- C5 witness: actor 20 scheduled second but at time 3 resolves before actor 10
scheduled first at time 5. -/
theorem c5_resolution_order_witness :
    (⟨3, 1, 20⟩ : QEntry) ∈ (buildQueue [(10, 5), (20, 3)]).entries ∧
    (⟨5, 0, 10⟩ : QEntry) ∈ (buildQueue [(10, 5), (20, 3)]).entries ∧
    List.Sublist [(⟨3, 1, 20⟩ : QEntry), ⟨5, 0, 10⟩]
      (buildQueue [(10, 5), (20, 3)]).entries :=
  ⟨by decide, by decide,
    c5_resolution_order [(10, 5), (20, 3)] ⟨3, 1, 20⟩ ⟨5, 0, 10⟩
      (by decide) (by decide) (Or.inl (by decide))⟩

/-- C6: a player actor at the head of the queue with no attached action: any number
of repeated engine/input-system invocations (with no action-key press) leaves the
queue, the clock and the actor's next_turn_time unmodified and leaves the
WaitingForInput gate set, setting it on the first invocation. -/
theorem c6_gated_head_idle (pressed : List KeyCode) (q : TurnQueue)
    (st : ActorState) (n : Nat)
    (hhead : q.entries ≠ [])
    (hplayer : st.player = true)
    (hact : st.action = none)
    (hkeys : chooseAction ACTION_KEYS pressed = none) :
    iterFrame pressed (n + 1) (q, st) = (q, { st with waitingForInput := true }) := by
  obtain ⟨e, rest, he⟩ := List.exists_cons_of_ne_nil hhead
  have hpis : ∀ s : ActorState,
      (player_input_system pressed q.current_time s).1 = s := by
    intro s
    unfold player_input_system
    rw [hkeys]
    split <;> rfl
  have hstep : ∀ s : ActorState, s.action = none → s.player = true →
      frame pressed (q, s) = (q, { s with waitingForInput := true }) := by
    intro s h1 h2
    show engineStep q (player_input_system pressed q.current_time s).1 = _
    rw [hpis s]
    simp [engineStep, TurnQueue.peek_next, he, h1, h2]
  have hfix : ∀ m, iterFrame pressed m (q, { st with waitingForInput := true })
      = (q, { st with waitingForInput := true }) := by
    intro m
    induction m with
    | zero => rfl
    | succ k ih =>
        show iterFrame pressed k
          (frame pressed (q, { st with waitingForInput := true })) = _
        rw [hstep { st with waitingForInput := true } hact hplayer]
        exact ih
  show iterFrame pressed n (frame pressed (q, st)) = _
  rw [hstep st hact hplayer]
  exact hfix n

/-- C6 witness: two invocations with no key pressed on a gated-to-be player head
leave the queue and clock alone and set the gate. -/
theorem c6_gated_head_idle_witness :
    ((⟨0, 1, [⟨0, 0, 7⟩]⟩ : TurnQueue).entries ≠ []) ∧
    iterFrame [] 2 (⟨0, 1, [⟨0, 0, 7⟩]⟩, ⟨100, 0, true, false, none⟩)
      = (⟨0, 1, [⟨0, 0, 7⟩]⟩, ⟨100, 0, true, true, none⟩) := by
  refine ⟨by simp, ?_⟩
  exact c6_gated_head_idle [] ⟨0, 1, [⟨0, 0, 7⟩]⟩ ⟨100, 0, true, false, none⟩ 1
    (by simp) rfl rfl rfl

/-- C7: one invocation of the input system attaches at most one Action; an attached
action goes to an actor that is player-tagged and gated and is stored on it; an
ungated or non-player actor is left untouched with nothing attached; and when the
key scan selects an action for a gated player, exactly that one action is attached
even if keys of several actions are pressed. -/
theorem c7_single_action (pressed : List KeyCode) (current_time : Nat)
    (st : ActorState) :
    (player_input_system pressed current_time st).2.length ≤ 1 ∧
    (∀ a, (player_input_system pressed current_time st).2 = [a] →
        st.player = true ∧ st.waitingForInput = true ∧
        (player_input_system pressed current_time st).1.action = some a) ∧
    ((st.waitingForInput = false ∨ st.player = false) →
        player_input_system pressed current_time st = (st, [])) ∧
    (st.waitingForInput = true → st.player = true →
        ∀ a, chooseAction ACTION_KEYS pressed = some a →
          (player_input_system pressed current_time st).2 = [a]) := by
  unfold player_input_system
  by_cases hw : st.waitingForInput <;> by_cases hp : st.player <;>
    cases hca : chooseAction ACTION_KEYS pressed <;>
      simp [hw, hp, hca]

/-- C7 witness: with both a move key and the wait key pressed, a gated player
receives exactly one action, and an ungated player receives none. -/
theorem c7_single_action_witness :
    (player_input_system [KeyCode.KeyW, KeyCode.Space] 0
        ⟨100, 0, true, true, none⟩).2.length ≤ 1 ∧
    player_input_system [KeyCode.KeyW, KeyCode.Space] 0
        ⟨100, 0, true, false, none⟩ = (⟨100, 0, true, false, none⟩, []) :=
  ⟨(c7_single_action [KeyCode.KeyW, KeyCode.Space] 0 ⟨100, 0, true, true, none⟩).1,
   (c7_single_action [KeyCode.KeyW, KeyCode.Space] 0
      ⟨100, 0, true, false, none⟩).2.2.1 (Or.inl rfl)⟩

/-- C8: a move whose destination cell is occupied is rejected: the occupancy map is
unchanged (in particular the destination keeps its occupant), the acting actor
keeps its position, and the time cost charged is still the full Move cost. -/
theorem c8_move_rejected (m : Map) (passable : Position → Bool)
    (actor occupant : Nat) (pos dest : Position) (speed : Nat) (d : MoveDirection)
    (h : m.get_actor dest = some occupant) :
    (apply_move m passable actor pos dest speed).map = m ∧
    (apply_move m passable actor pos dest speed).map.get_actor dest
        = some occupant ∧
    (apply_move m passable actor pos dest speed).pos = pos ∧
    (apply_move m passable actor pos dest speed).timeCost
        = time_cost (Action.Move d) speed := by
  simp [apply_move, h, time_cost]

/-- C8 witness: actor 9 moving from (2, 1) onto (1, 1), occupied by actor 5, on an
all-passable map: rejected with full cost 100 charged. -/
theorem c8_move_rejected_witness :
    ((Map.mk (3, 3) [(⟨1, 1⟩, 5)]).get_actor ⟨1, 1⟩ = some 5) ∧
    (apply_move (Map.mk (3, 3) [(⟨1, 1⟩, 5)]) (fun _ => true) 9
        ⟨2, 1⟩ ⟨1, 1⟩ 100).map = Map.mk (3, 3) [(⟨1, 1⟩, 5)] ∧
    (apply_move (Map.mk (3, 3) [(⟨1, 1⟩, 5)]) (fun _ => true) 9
        ⟨2, 1⟩ ⟨1, 1⟩ 100).pos = ⟨2, 1⟩ ∧
    (apply_move (Map.mk (3, 3) [(⟨1, 1⟩, 5)]) (fun _ => true) 9
        ⟨2, 1⟩ ⟨1, 1⟩ 100).timeCost
        = time_cost (Action.Move MoveDirection.East) 100 := by
  have h := c8_move_rejected (Map.mk (3, 3) [(⟨1, 1⟩, 5)]) (fun _ => true) 9 5
    ⟨2, 1⟩ ⟨1, 1⟩ 100 MoveDirection.East (by decide)
  exact ⟨by decide, h.1, h.2.2.1, h.2.2.2⟩

end BevyRL
